import Mathlib

/-!
Verification development for the node-red-contrib-event-calc repository.

The definitions below are a shallow embedding of the core of the package:

* the topic cache (`src/nodes/event-cache.js`): `setValue` (store + bounded
  eviction), the TTL sweep, the subscription table and `updateHandler`;
* the reactive calculator (`event-calc` in the unnamed source file):
  `tryCalculate`, its context assembly, and the node's input-message handler.

JavaScript numbers are modelled by `JsNum`: exact rationals plus the IEEE
special values Infinity, -Infinity and NaN.  The arithmetic used by the
claims (small-integer addition, division by zero) is exact in doubles, so
the rational model agrees with the code on every input that appears in a
theorem; double rounding and negative zero are not modelled.
-/

/-- A JavaScript number: finite (modelled exactly as a rational), or one of
the IEEE special values. -/
inductive JsNum
  | finite (q : ℚ)
  | inf
  | neginf
  | nan
deriving DecidableEq

/-- A JavaScript runtime value, restricted to the shapes the cache and the
calculator handle: numbers, strings, booleans, `undefined`, `null`, plain
objects, and an opaque function/library binding (`funcV`, used for the
helper-library names; their numeric content is not relied on by any
theorem). -/
inductive JsValue
  | num (n : JsNum)
  | str (s : String)
  | boolV (b : Bool)
  | undef
  | nullV
  | obj
  | funcV
deriving DecidableEq

/-- ToNumber on strings, for the fragment exercised here: the empty string
converts to 0 and a plain decimal-digit string to that integer; every other
string is modelled as NaN (no theorem applies arithmetic to such strings). -/
def strToNumber (s : String) : JsNum :=
  if s = "" then JsNum.finite 0
  else
    match s.toNat? with
    | some n => JsNum.finite (n : ℚ)
    | none => JsNum.nan

/-- JavaScript ToPrimitive: plain objects convert to the string
"[object Object]"; functions to a source string; primitives are unchanged. -/
def toPrimitive : JsValue → JsValue
  | JsValue.obj => JsValue.str "[object Object]"
  | JsValue.funcV => JsValue.str "function"
  | v => v

/-- JavaScript ToString, for the values that can reach string
concatenation in a theorem.  Finite numbers print exactly when integral. -/
def jsToString : JsValue → String
  | JsValue.num (JsNum.finite q) => if q.den = 1 then toString q.num else toString q
  | JsValue.num JsNum.inf => "Infinity"
  | JsValue.num JsNum.neginf => "-Infinity"
  | JsValue.num JsNum.nan => "NaN"
  | JsValue.str s => s
  | JsValue.boolV b => if b then "true" else "false"
  | JsValue.undef => "undefined"
  | JsValue.nullV => "null"
  | JsValue.obj => "[object Object]"
  | JsValue.funcV => "function"

/-- JavaScript ToNumber. -/
def toNumber : JsValue → JsNum
  | JsValue.num n => n
  | JsValue.str s => strToNumber s
  | JsValue.boolV b => JsNum.finite (if b then 1 else 0)
  | JsValue.undef => JsNum.nan
  | JsValue.nullV => JsNum.finite 0
  | JsValue.obj => JsNum.nan
  | JsValue.funcV => JsNum.nan

/-- IEEE addition on the number model (NaN propagates; Infinity plus
-Infinity is NaN; finite addition is exact). -/
def numAdd : JsNum → JsNum → JsNum
  | JsNum.nan, _ => JsNum.nan
  | _, JsNum.nan => JsNum.nan
  | JsNum.inf, JsNum.neginf => JsNum.nan
  | JsNum.neginf, JsNum.inf => JsNum.nan
  | JsNum.inf, _ => JsNum.inf
  | _, JsNum.inf => JsNum.inf
  | JsNum.neginf, _ => JsNum.neginf
  | _, JsNum.neginf => JsNum.neginf
  | JsNum.finite a, JsNum.finite b => JsNum.finite (a + b)

/-- IEEE division on the number model: 0/0 is NaN, x/0 for x nonzero is a
signed infinity, finite division is exact (sign of zero not modelled). -/
def numDiv : JsNum → JsNum → JsNum
  | JsNum.nan, _ => JsNum.nan
  | _, JsNum.nan => JsNum.nan
  | JsNum.inf, JsNum.inf => JsNum.nan
  | JsNum.inf, JsNum.neginf => JsNum.nan
  | JsNum.neginf, JsNum.inf => JsNum.nan
  | JsNum.neginf, JsNum.neginf => JsNum.nan
  | JsNum.inf, JsNum.finite b => if b < 0 then JsNum.neginf else JsNum.inf
  | JsNum.neginf, JsNum.finite b => if b < 0 then JsNum.inf else JsNum.neginf
  | JsNum.finite _, JsNum.inf => JsNum.finite 0
  | JsNum.finite _, JsNum.neginf => JsNum.finite 0
  | JsNum.finite a, JsNum.finite b =>
      if b = 0 then
        (if a = 0 then JsNum.nan else if a > 0 then JsNum.inf else JsNum.neginf)
      else JsNum.finite (a / b)

/-- The JavaScript binary `+`: if either operand converts to a string the
result is string concatenation, otherwise numeric addition. -/
def jsAdd (x y : JsValue) : JsValue :=
  match toPrimitive x, toPrimitive y with
  | JsValue.str a, b => JsValue.str (a ++ jsToString b)
  | a, JsValue.str b => JsValue.str (jsToString a ++ b)
  | a, b => JsValue.num (numAdd (toNumber a) (toNumber b))

/-- The JavaScript binary `/`: both operands go through ToNumber. -/
def jsDiv (x y : JsValue) : JsValue :=
  JsValue.num (numDiv (toNumber x) (toNumber y))

/-- Expressions of the fragment of JavaScript that the claims exercise:
number literals, identifiers, addition and division.  This is the shape of
the strings the calculator hands to `new Function('return <expr>;')`. -/
inductive Expr
  | lit (q : ℚ)
  | evar (name : String)
  | add (a b : Expr)
  | div (a b : Expr)
deriving DecidableEq

/-- First-match association lookup, mirroring JavaScript `Map.get` /
property access on the objects built by the code (keys are unique there). -/
def assocGet {α : Type} (l : List (String × α)) (k : String) : Option α :=
  (l.find? (fun p => p.1 = k)).map Prod.snd

/-- JavaScript `Map.set` / `obj[k] = v`: replace in place when the key is
present, else append. -/
def assocSet {α : Type} (l : List (String × α)) (k : String) (v : α) : List (String × α) :=
  if l.any (fun p => p.1 = k) then l.map (fun p => if p.1 = k then (k, v) else p)
  else l ++ [(k, v)]

/-- The names of the helper-function library spread into the evaluation
context by `tryCalculate` (`const allParams = { ...helpers, ...context }`). -/
def helperNames : List String :=
  ["min", "max", "abs", "sqrt", "pow", "log", "log10", "exp", "floor", "ceil",
   "sin", "cos", "tan", "PI", "E", "sum", "avg", "count", "round", "clamp",
   "map", "lerp", "ifelse", "between", "delta", "pctChange"]

/-- Evaluation of an expression under the calculator's parameter list:
input variables shadow helper names (object spread order), helper names are
bound to the library, and any other identifier raises a ReferenceError —
as `new Function` does for identifiers that are neither parameters nor
JavaScript globals (no theorem uses a global name). -/
def evalExpr (ctx : List (String × JsValue)) : Expr → Except String JsValue
  | Expr.lit q => Except.ok (JsValue.num (JsNum.finite q))
  | Expr.evar n =>
      match assocGet ctx n with
      | some v => Except.ok v
      | none =>
          if n ∈ helperNames then Except.ok JsValue.funcV
          else Except.error (n ++ " is not defined")
  | Expr.add a b =>
      match evalExpr ctx a with
      | Except.error m => Except.error m
      | Except.ok x =>
          match evalExpr ctx b with
          | Except.error m => Except.error m
          | Except.ok y => Except.ok (jsAdd x y)
  | Expr.div a b =>
      match evalExpr ctx a with
      | Except.error m => Except.error m
      | Except.ok x =>
          match evalExpr ctx b with
          | Except.error m => Except.error m
          | Except.ok y => Except.ok (jsDiv x y)

/-- True exactly for a value of JavaScript number type whose value is NaN:
the calculator's guard `typeof result === 'number' && isNaN(result)`. -/
def isNaNNumber : JsValue → Bool
  | JsValue.num JsNum.nan => true
  | _ => false

/-- True for any value of JavaScript number type (`typeof result ===
'number'`). -/
def isNumberType : JsValue → Bool
  | JsValue.num _ => true
  | _ => false

instance {ε α : Type} [DecidableEq ε] [DecidableEq α] : DecidableEq (Except ε α) :=
  fun x y =>
    match x, y with
    | Except.ok a, Except.ok b =>
        if h : a = b then isTrue (by rw [h])
        else isFalse (fun hh => h (Except.ok.inj hh))
    | Except.error a, Except.error b =>
        if h : a = b then isTrue (by rw [h])
        else isFalse (fun hh => h (Except.error.inj hh))
    | Except.ok _, Except.error _ => isFalse (fun hh => Except.noConfusion hh)
    | Except.error _, Except.ok _ => isFalse (fun hh => Except.noConfusion hh)

/-- Metadata attached to a cache entry, covering the shapes the repository
constructs: `event-in` passes `{_msgid}`, `event-calc` passes
`{source: 'event-calc', expression, inputs}`, and callers may pass a plain
object (the default is `{}`). -/
inductive MetaData
  | ofMsg (msgid : String)
  | ofCalc (expression : Expr) (inputs : List String)
  | plain (kv : List (String × String))
deriving DecidableEq

/-- A cache entry as built by `setValue`: `{value, ts: Date.now(), metadata}`. -/
structure Entry where
  value : JsValue
  ts : Nat
  metadata : MetaData
deriving DecidableEq

/-- The topic cache: the plain object stored in global context, keyed by
topic.  The list order is JavaScript property order: insertion order of
string keys, with an overwritten key keeping its position. -/
abbrev Cache := List (String × Entry)

/-- The assignment `cache[topic] = entry`. -/
def insertEntry (c : Cache) (k : String) (e : Entry) : Cache :=
  assocSet c k e

/-- One step of the eviction scan: keep the running oldest key unless the
inspected entry has a strictly smaller timestamp. -/
def oldestStep (best : String × Nat) (q : String × Entry) : String × Nat :=
  if q.2.ts < best.2 then (q.1, q.2.ts) else best

/-- The eviction scan of `setValue` (event-cache.js lines 89-97): start from
the first key, then walk every key keeping the one with the strictly
smallest timestamp.  Returns the chosen key and its timestamp. -/
def oldestEntry (c : Cache) : Option (String × Nat) :=
  match c with
  | [] => none
  | p :: _ => some (c.foldl oldestStep (p.1, p.2.ts))

/-- The statement `delete cache[oldestKey]`. -/
def eraseTopic (c : Cache) (k : String) : Cache :=
  c.filter (fun p => p.1 ≠ k)

/-- The capacity check of `setValue`: if the entry count exceeds
`maxEntries`, delete the entry found by the eviction scan. -/
def evictIfNeeded (maxEntries : Nat) (c1 : Cache) : Cache :=
  if maxEntries < c1.length then
    match oldestEntry c1 with
    | some km => eraseTopic c1 km.1
    | none => c1
  else c1

/-- The cache-mutating part of `node.setValue(topic, value, metadata)`:
build the entry with the current time, store it, and enforce the capacity
bound.  Returns the updated cache together with the freshly stored entry
(which `setValue` then emits on the 'update' event). -/
def setValue (maxEntries : Nat) (c : Cache) (topic : String) (value : JsValue)
    (now : Nat) (metadata : MetaData) : Cache × Entry :=
  (evictIfNeeded maxEntries (insertEntry c topic ⟨value, now, metadata⟩),
   ⟨value, now, metadata⟩)

/-- One call in a sequence of `set` calls: topic, value, wall-clock time and
metadata. -/
structure SetCall where
  topic : String
  value : JsValue
  now : Nat
  metadata : MetaData

/-- Run a sequence of `set` calls against a cache that starts empty (a fresh
node initialises the context cache to `{}`). -/
def runSets (maxEntries : Nat) (ops : List SetCall) : Cache :=
  ops.foldl (fun c op => (setValue maxEntries c op.topic op.value op.now op.metadata).1) []

/-- Well-formedness of the cache object: property keys are distinct (true of
every JavaScript object, and preserved by the operations here). -/
abbrev CacheWF (c : Cache) : Prop :=
  (c.map Prod.fst).Nodup

/-- The body of the TTL cleanup interval (event-cache.js lines 54-67): drop
every entry whose age strictly exceeds the TTL.  The second component is
the list of 'update' events emitted during the sweep; the loop only
deletes, so it is empty. -/
def ttlSweep (ttl now : Nat) (c : Cache) : Cache × List (String × Entry) :=
  (c.filter (fun p => ¬ ((now : Int) - (p.2.ts : Int) > (ttl : Int))), [])

/-- The schedule of the TTL cleanup: an interval of `min(ttl, 60000)` ms is
created only when `ttl > 0`; with `ttl = 0` no interval exists. -/
def sweepPeriod (ttl : Nat) : Option Nat :=
  if 0 < ttl then some (min ttl 60000) else none

/-- A registered subscription as seen by the dispatcher: its id and, as an
abstraction of the callback closure, whether invoking it throws (`failure =
some message`) or returns normally (`failure = none`). -/
structure Subscriber where
  id : String
  failure : Option String
deriving DecidableEq

/-- The registry `Map<topic, Map<subId, callback>>`, in insertion order. -/
abbrev Subs := List (String × List Subscriber)

/-- The lookup `instance.subscriptions.get(topic)`. -/
def subsGet (s : Subs) (topic : String) : Option (List Subscriber) :=
  (s.find? (fun p => p.1 = topic)).map Prod.snd

/-- A record of one callback invocation performed by the dispatcher: which
subscription was called and with which `(topic, entry)` arguments. -/
structure Invocation where
  subId : String
  topic : String
  entry : Entry
deriving DecidableEq

/-- The log line produced by the dispatcher's catch block. -/
def cbLogMsg (m : String) : String :=
  "[event-cache] Subscription callback error: " ++ m

/-- Invoking one callback, which may throw. -/
def runCb (s : Subscriber) : Except String Unit :=
  match s.failure with
  | some m => Except.error m
  | none => Except.ok ()

/-- The dispatcher of event-cache.js (lines 176-187): look up the exact
topic in the subscription map — there is no wildcard matching — and call
every callback in the bucket inside `try { ... } catch { log }`.  Returns
the invocations performed and the error log lines. -/
def updateHandler (subs : Subs) (topic : String) (entry : Entry) :
    List Invocation × List String :=
  match subsGet subs topic with
  | none => ([], [])
  | some bucket =>
      bucket.foldl
        (fun acc s =>
          match runCb s with
          | Except.ok _ => (acc.1 ++ [⟨s.id, topic, entry⟩], acc.2)
          | Except.error m => (acc.1 ++ [⟨s.id, topic, entry⟩], acc.2 ++ [cbLogMsg m]))
        ([], [])

/-- A full `setValue` call including its synchronous dispatch: the cache
write followed by the 'update' emission handled by `updateHandler`. -/
def setValueDispatch (maxEntries : Nat) (subs : Subs) (c : Cache) (topic : String)
    (value : JsValue) (now : Nat) (metadata : MetaData) :
    Cache × Entry × List Invocation × List String :=
  let ce := setValue maxEntries c topic value now metadata
  let il := updateHandler subs topic ce.2
  (ce.1, ce.2, il.1, il.2)

/-- One row of the calculator's input table: a variable name and a topic
(the editor stores it under `topic`, older flows under `pattern`; the empty
string stands for an absent field). -/
structure InputMapping where
  name : String
  topic : String
  pattern : String
deriving DecidableEq

/-- The fallback `input.topic || input.pattern`. -/
def topicNameOf (im : InputMapping) : String :=
  if im.topic ≠ "" then im.topic else im.pattern

/-- The configuration of one `event-calc` node after construction. -/
structure CalcConfig where
  inputMappings : List InputMapping
  expression : Expr
  triggerOn : String
  outputTopic : String
deriving DecidableEq

/-- The value stored in `latestValues` for one input name: the topic that
delivered it, the delivered value and its timestamp. -/
structure InputData where
  topic : String
  value : JsValue
  ts : Nat
deriving DecidableEq

/-- The calculator's `latestValues` map, in insertion order. -/
abbrev Latest := List (String × InputData)

/-- One row of the `inputDetails` object assembled by `tryCalculate`. -/
structure InputDetail where
  topic : String
  value : JsValue
  ts : Nat
deriving DecidableEq

/-- The three objects `tryCalculate` assembles before evaluating: the
evaluation context, the `inputDetails` object and the `missingInputs`
list. -/
structure CtxParts where
  ctx : List (String × JsValue)
  details : List (String × InputDetail)
  missing : List String
deriving DecidableEq

/-- The context-assembly loop of `tryCalculate`: for each input mapping, if
`latestValues` has a value that is neither `undefined` nor `null`, bind the
variable to it and record the detail row; otherwise bind the variable to
`undefined` and record the name as missing. -/
def buildContext (cfg : CalcConfig) (latest : Latest) : CtxParts :=
  cfg.inputMappings.foldl
    (fun acc im =>
      match assocGet latest im.name with
      | some d =>
          if d.value ≠ JsValue.undef ∧ d.value ≠ JsValue.nullV then
            ⟨assocSet acc.ctx im.name d.value,
             assocSet acc.details im.name ⟨d.topic, d.value, d.ts⟩,
             acc.missing⟩
          else
            ⟨assocSet acc.ctx im.name JsValue.undef, acc.details, acc.missing ++ [im.name]⟩
      | none =>
          ⟨assocSet acc.ctx im.name JsValue.undef, acc.details, acc.missing ++ [im.name]⟩)
    ⟨[], [], []⟩

/-- The `topics` object of the success message: `_output` plus one entry
per present input. -/
def topicsObj (cfg : CalcConfig) (parts : CtxParts) : List (String × String) :=
  ("_output", cfg.outputTopic) :: parts.details.map (fun p => (p.1, p.2.topic))

/-- The `timestamps` object of the success message. -/
def timestampsObj (parts : CtxParts) : List (String × Nat) :=
  parts.details.map (fun p => (p.1, p.2.ts))

/-- The message sent on the first (success) output. -/
structure SuccessMsg where
  topic : String
  payload : JsValue
  topics : List (String × String)
  inputs : List (String × InputDetail)
  timestamps : List (String × Nat)
  expression : Expr
  trigger : String
  timestamp : Nat
deriving DecidableEq

/-- The message sent on the second (failure) output.  `missingInputs` is
populated by the NaN branch, `errContext` by the catch branch. -/
structure FailMsg where
  topic : String
  error : String
  missingInputs : Option (List String)
  errContext : Option (List (String × JsValue))
  expression : Expr
  inputs : List (String × InputDetail)
  trigger : String
  timestamp : Nat
deriving DecidableEq

/-- The arguments of the `cacheConfig.setValue` call made on success. -/
structure CacheWriteCall where
  topic : String
  value : JsValue
  metadata : MetaData
deriving DecidableEq

/-- The observable outcome of one `tryCalculate` call: what was sent on the
success output, what was sent on the failure output, and which cache write
was performed. -/
structure TryResult where
  out1 : Option SuccessMsg
  out2 : Option FailMsg
  write : Option CacheWriteCall
deriving DecidableEq

/-- The outcome of a silent abort: nothing sent, nothing written. -/
def emptyResult : TryResult := ⟨none, none, none⟩

/-- The `all`-policy gate: every input name has an entry in
`latestValues`. -/
def allPresent (cfg : CalcConfig) (latest : Latest) : Bool :=
  cfg.inputMappings.all (fun im => (assocGet latest im.name).isSome)

/-- The part of `tryCalculate` after the feedback-loop guard: the `all`
policy check, the empty-snapshot check, context assembly, evaluation and
result handling. -/
def tryCalcGuarded (cfg : CalcConfig) (trigger : String) (latest : Latest)
    (now : Nat) : TryResult :=
  if cfg.triggerOn = "all" ∧ allPresent cfg latest = false then emptyResult
  else if latest = ([] : List (String × InputData)) then emptyResult
  else
    let parts := buildContext cfg latest
    match evalExpr parts.ctx cfg.expression with
    | Except.error m =>
        ⟨none,
         some ⟨cfg.outputTopic, m, none, some parts.ctx, cfg.expression, parts.details,
           trigger, now⟩,
         none⟩
    | Except.ok v =>
        if isNaNNumber v then
          ⟨none,
           some ⟨cfg.outputTopic, "Expression resulted in NaN", some parts.missing, none,
             cfg.expression, parts.details, trigger, now⟩,
           none⟩
        else
          ⟨some ⟨cfg.outputTopic, v, topicsObj cfg parts, parts.details,
             timestampsObj parts, cfg.expression, trigger, now⟩,
           none,
           some ⟨cfg.outputTopic, v, MetaData.ofCalc cfg.expression
             (parts.details.map Prod.fst)⟩⟩

/-- The function `tryCalculate(triggerTopic, latestValues)` of the
`event-calc` node: the feedback-loop guard first, then the gated body. -/
def tryCalculate (cfg : CalcConfig) (trigger : String) (latest : Latest)
    (now : Nat) : TryResult :=
  if trigger = cfg.outputTopic then emptyResult
  else tryCalcGuarded cfg trigger latest now

/-- The subscription callback the calculator registers for one input
mapping: record the delivered value under the input's name in
`latestValues`, then call `tryCalculate` with the delivering topic. -/
def calcCallback (cfg : CalcConfig) (imName : String) (topic : String) (entry : Entry)
    (latest : Latest) (now : Nat) : Latest × TryResult :=
  let latest1 := assocSet latest imName ⟨topic, entry.value, entry.ts⟩
  (latest1, tryCalculate cfg topic latest1 now)

/-- Delivery of one cache write to the calculator's subscriptions: the node
subscribes once per input mapping that has a non-empty name and topic, so a
write to `topic` runs, in mapping order, the callback of every mapping
whose topic equals the written topic (dispatch is exact, see
`updateHandler`).  Each callback sees `latestValues` as left by the
previous one. -/
def dispatchToCalc (cfg : CalcConfig) (latest : Latest) (topic : String) (entry : Entry)
    (now : Nat) : Latest × List TryResult :=
  cfg.inputMappings.foldl
    (fun acc im =>
      if im.name ≠ "" ∧ topicNameOf im ≠ "" ∧ topicNameOf im = topic then
        let lr := calcCallback cfg im.name topic entry acc.1 now
        (lr.1, acc.2 ++ [lr.2])
      else acc)
    (latest, ([] : List TryResult))

/-- An inbound message to the `event-calc` node, restricted to the fields
its input handler reads. -/
structure InMsg where
  payload : JsValue
  topic : Option String
  expression : Option Expr

/-- The `event-calc` input handler: an `expression` field replaces the
node's expression; a payload or topic equal to 'recalc' forces a
recalculation through `tryCalculate('_recalc', latestValues)` provided at
least one input value is known.  Returns the (possibly updated)
configuration and the `tryCalculate` outcome, if one was invoked. -/
def handleInput (cfg : CalcConfig) (latest : Latest) (m : InMsg) (now : Nat) :
    CalcConfig × Option TryResult :=
  let cfg1 :=
    match m.expression with
    | some e => { cfg with expression := e }
    | none => cfg
  let act :=
    if m.payload = JsValue.str "recalc" ∨ m.topic = some "recalc" then
      (if latest ≠ ([] : List (String × InputData)) then
        some (tryCalculate cfg1 "_recalc" latest now)
      else none)
    else none
  (cfg1, act)

/-- Shorthand for an empty metadata object. -/
def mdE : MetaData := MetaData.plain []

/-- The JavaScript number 1. -/
def v1 : JsValue := JsValue.num (JsNum.finite 1)

/-- The JavaScript number 2. -/
def v2 : JsValue := JsValue.num (JsNum.finite 2)

/-- A concrete two-write sequence used to exercise the capacity bound. -/
def opsC1 : List SetCall := [⟨"a", v1, 5, mdE⟩, ⟨"b", v2, 7, mdE⟩]

/-- A concrete one-entry cache used to exercise the eviction scan. -/
def cacheC1 : Cache := [("a", ⟨v1, 5, mdE⟩)]

/-- A registry holding one subscription registered under the wildcard
pattern string `sensors/*`. -/
def subsWild : Subs := [("sensors/*", [⟨"sub_1", none⟩])]

/-- A registry with one subscriber on topic `t` and one on topic `u`. -/
def subsTU : Subs := [("t", [⟨"sub_1", none⟩]), ("u", [⟨"sub_2", none⟩])]

/-- A registry whose topic-`t` bucket has a throwing callback followed by a
normal one. -/
def subsThrow : Subs := [("t", [⟨"sub_1", some "boom"⟩, ⟨"sub_2", none⟩])]

/-- An input mapping binding variable `a` to topic `x`. -/
def imA : InputMapping := ⟨"a", "x", ""⟩

/-- A calculator computing `a/0` from input `a` on topic `x`. -/
def cfgDivA : CalcConfig := ⟨[imA], Expr.div (Expr.evar "a") (Expr.lit 0), "any", "calc/result"⟩

/-- A calculator computing `0/0`. -/
def cfgZeroZero : CalcConfig := ⟨[imA], Expr.div (Expr.lit 0) (Expr.lit 0), "any", "calc/result"⟩

/-- A calculator whose expression references the unbound identifier `zz`
(a ReferenceError at evaluation time). -/
def cfgRefErr : CalcConfig := ⟨[imA], Expr.evar "zz", "any", "calc/result"⟩

/-- A calculator that returns its input `a` unchanged. -/
def cfgIdent : CalcConfig := ⟨[imA], Expr.evar "a", "any", "calc/result"⟩

/-- A calculator configured with `_recalc` as its output topic. -/
def cfgUnderscore : CalcConfig := ⟨[imA], Expr.evar "a", "any", "_recalc"⟩

/-- A calculator with policy `all`, inputs `a -> x` and `b -> y`, expression
`a+b` and output topic `calc/result`. -/
def cfgAll : CalcConfig :=
  ⟨[⟨"a", "x", ""⟩, ⟨"b", "y", ""⟩], Expr.add (Expr.evar "a") (Expr.evar "b"),
   "all", "calc/result"⟩

/-- A calculator with one of its own inputs mapped to its output topic. -/
def cfgSelf : CalcConfig := ⟨[⟨"a", "calc/result", ""⟩], Expr.evar "a", "any", "calc/result"⟩

/-- A `latestValues` snapshot where `a` was delivered the number 1 by
topic `x`. -/
def latestA : Latest := [("a", ⟨"x", v1, 5⟩)]

/-- A `latestValues` snapshot where `a` was delivered `null`. -/
def latestNull : Latest := [("a", ⟨"x", JsValue.nullV, 5⟩)]

/-- An inbound control message with payload 'recalc'. -/
def msgRecalc : InMsg := ⟨JsValue.str "recalc", none, none⟩

example : evalExpr [("a", JsValue.num (JsNum.finite 1))]
    (Expr.div (Expr.evar "a") (Expr.lit 0)) = Except.ok (JsValue.num JsNum.inf) := by rfl

example : evalExpr [("a", JsValue.num (JsNum.finite 1))]
    (Expr.div (Expr.lit 0) (Expr.lit 0)) = Except.ok (JsValue.num JsNum.nan) := by rfl

example : evalExpr [("a", JsValue.num (JsNum.finite 1)), ("b", JsValue.num (JsNum.finite 2))]
    (Expr.add (Expr.evar "a") (Expr.evar "b")) = Except.ok (JsValue.num (JsNum.finite 3)) := by
  simp [evalExpr, assocGet, jsAdd, toPrimitive, toNumber, numAdd]
  norm_num

lemma foldl_oldestStep_le (l : List (String × Entry)) (b : String × Nat) :
    (l.foldl oldestStep b).2 ≤ b.2 := by
  induction l generalizing b with
  | nil => simp
  | cons q t ih =>
      simp only [List.foldl_cons]
      refine le_trans (ih (oldestStep b q)) ?_
      unfold oldestStep
      split
      · omega
      · exact le_refl _

lemma foldl_oldestStep_min (l : List (String × Entry)) (b : String × Nat) :
    ∀ p ∈ l, (l.foldl oldestStep b).2 ≤ p.2.ts := by
  induction l generalizing b with
  | nil => simp
  | cons q t ih =>
      intro p hp
      simp only [List.foldl_cons]
      rcases List.mem_cons.mp hp with h | h
      · subst h
        refine le_trans (foldl_oldestStep_le t (oldestStep b p)) ?_
        unfold oldestStep
        split
        · exact le_refl _
        · omega
      · exact ih (oldestStep b q) p h

lemma foldl_oldestStep_mem (l : List (String × Entry)) (b : String × Nat) :
    l.foldl oldestStep b = b ∨ ∃ p ∈ l, l.foldl oldestStep b = (p.1, p.2.ts) := by
  induction l generalizing b with
  | nil => left; rfl
  | cons q t ih =>
      simp only [List.foldl_cons]
      rcases ih (oldestStep b q) with h | ⟨p, hp, he⟩
      · rw [h]
        unfold oldestStep
        split
        · right
          exact ⟨q, List.mem_cons_self q t, rfl⟩
        · left; rfl
      · right
        exact ⟨p, List.mem_cons_of_mem q hp, he⟩

lemma oldestEntry_spec (c : Cache) (k : String) (t : Nat)
    (h : oldestEntry c = some (k, t)) :
    (∃ e, (k, e) ∈ c ∧ e.ts = t) ∧ ∀ p ∈ c, t ≤ p.2.ts := by
  cases c with
  | nil => simp [oldestEntry] at h
  | cons p rest =>
      unfold oldestEntry at h
      injection h with h
      constructor
      · rcases foldl_oldestStep_mem (p :: rest) (p.1, p.2.ts) with hm | ⟨q, hq, he⟩
        · rw [hm] at h
          obtain ⟨h1, h2⟩ := Prod.mk.injEq .. ▸ h
          exact ⟨p.2, by simp [← h1], h2⟩
        · rw [he] at h
          obtain ⟨h1, h2⟩ := Prod.mk.injEq .. ▸ h
          exact ⟨q.2, by simpa [← h1] using hq, h2⟩
      · intro p' hp'
        have := foldl_oldestStep_min (p :: rest) (p.1, p.2.ts) p' hp'
        rw [h] at this
        exact this

lemma oldestEntry_eq_none (c : Cache) : oldestEntry c = none ↔ c = [] := by
  cases c <;> simp [oldestEntry]

lemma insertEntry_length_le (c : Cache) (k : String) (e : Entry) :
    (insertEntry c k e).length ≤ c.length + 1 := by
  unfold insertEntry assocSet
  split
  · simp
  · simp

lemma eraseTopic_length_lt (c : Cache) (k : String) (e : Entry) (hm : (k, e) ∈ c) :
    (eraseTopic c k).length < c.length := by
  unfold eraseTopic
  refine List.length_filter_lt_length_iff_exists.mpr ?_
  exact ⟨(k, e), hm, by simp⟩

lemma evictIfNeeded_length (N : Nat) (c1 : Cache) (h : c1.length ≤ N + 1) :
    (evictIfNeeded N c1).length ≤ N := by
  unfold evictIfNeeded
  split
  · rename_i hlt
    rcases hoe : oldestEntry c1 with _ | km
    · rw [(oldestEntry_eq_none c1).mp hoe] at hlt
      simp at hlt
    · simp only []
      obtain ⟨⟨e, hmem, _⟩, _⟩ := oldestEntry_spec c1 km.1 km.2 (by rw [hoe])
      have := eraseTopic_length_lt c1 km.1 e hmem
      omega
  · rename_i hnlt
    omega

lemma setValue_length_le (N : Nat) (c : Cache) (topic : String) (v : JsValue)
    (now : Nat) (md : MetaData) (h : c.length ≤ N) :
    (setValue N c topic v now md).1.length ≤ N := by
  unfold setValue
  exact evictIfNeeded_length N _
    (le_trans (insertEntry_length_le c topic ⟨v, now, md⟩) (by omega))

lemma runSets_length_le (N : Nat) (ops : List SetCall) : (runSets N ops).length ≤ N := by
  unfold runSets
  suffices h : ∀ (c : Cache), c.length ≤ N →
      (ops.foldl (fun c op => (setValue N c op.topic op.value op.now op.metadata).1) c).length ≤ N by
    exact h [] (by simp)
  induction ops with
  | nil => intro c hc; simpa using hc
  | cons op t ih =>
      intro c hc
      simp only [List.foldl_cons]
      exact ih _ (setValue_length_le N c op.topic op.value op.now op.metadata hc)

lemma insertEntry_wf (c : Cache) (k : String) (e : Entry) (h : CacheWF c) :
    CacheWF (insertEntry c k e) := by
  unfold CacheWF at *
  unfold insertEntry assocSet
  split
  · have : (c.map (fun p => if p.1 = k then (k, e) else p)).map Prod.fst = c.map Prod.fst := by
      rw [List.map_map]
      refine List.map_congr_left ?_
      intro p _
      by_cases hk : p.1 = k
      · simp [hk]
      · simp [hk]
    rw [this]
    exact h
  · rename_i hany
    have hk : k ∉ c.map Prod.fst := by
      intro hmem
      obtain ⟨p, hp, hpk⟩ := List.mem_map.mp hmem
      exact hany (List.any_eq_true.mpr ⟨p, hp, by simp [hpk]⟩)
    rw [List.map_append]
    rw [List.nodup_append]
    refine ⟨h, by simp, ?_⟩
    intro x hx hy
    simp only [List.map_cons, List.map_nil, List.mem_singleton] at hy
    subst hy
    exact hk hx

lemma eraseTopic_eq_self (c : Cache) (k : String) (h : ∀ q ∈ c, q.1 ≠ k) :
    eraseTopic c k = c := by
  unfold eraseTopic
  refine List.filter_eq_self.mpr ?_
  intro a ha
  simpa using h a ha

lemma eraseTopic_length_wf (c : Cache) (k : String) (e : Entry)
    (hwf : CacheWF c) (hm : (k, e) ∈ c) :
    (eraseTopic c k).length + 1 = c.length := by
  induction c with
  | nil => simp at hm
  | cons p rest ih =>
      unfold CacheWF at hwf
      simp only [List.map_cons, List.nodup_cons] at hwf
      obtain ⟨hp, hrest⟩ := hwf
      rcases List.mem_cons.mp hm with h | h
      · have hk : p.1 = k := by rw [← h]
        have hall : ∀ q ∈ rest, q.1 ≠ k := by
          intro q hq hqk
          exact hp (List.mem_map.mpr ⟨q, hq, by rw [hqk, hk]⟩)
        unfold eraseTopic
        rw [List.filter_cons_of_neg (by simp [hk])]
        have hrw := eraseTopic_eq_self rest k hall
        unfold eraseTopic at hrw
        rw [hrw]
        simp
      · have hk : p.1 ≠ k := by
          intro hpk
          exact hp (List.mem_map.mpr ⟨(k, e), h, by simp [hpk]⟩)
        unfold eraseTopic
        rw [List.filter_cons_of_pos (by simp [hk])]
        have := ih hrest h
        unfold eraseTopic at this
        simp only [List.length_cons]
        omega

/-- C1: starting from an empty cache, after every `set` in any sequence of
`set` calls the cache holds at most `maxEntries` entries; and whenever a
`set` pushes the count above the bound, `setValue` removes exactly one
entry, namely one whose timestamp is minimal among all entries stored at
eviction time. -/
theorem setValue_capacity_and_min_eviction (N : Nat) (ops : List SetCall) :
    (runSets N ops).length ≤ N ∧
    (∀ (c : Cache) (topic : String) (v : JsValue) (now : Nat) (md : MetaData),
      CacheWF c →
      N < (insertEntry c topic ⟨v, now, md⟩).length →
      ∃ k t,
        oldestEntry (insertEntry c topic ⟨v, now, md⟩) = some (k, t) ∧
        (setValue N c topic v now md).1 = eraseTopic (insertEntry c topic ⟨v, now, md⟩) k ∧
        (∃ e, (k, e) ∈ insertEntry c topic ⟨v, now, md⟩ ∧ e.ts = t) ∧
        (∀ p ∈ insertEntry c topic ⟨v, now, md⟩, t ≤ p.2.ts) ∧
        (setValue N c topic v now md).1.length + 1 =
          (insertEntry c topic ⟨v, now, md⟩).length) := by
  constructor
  · exact runSets_length_le N ops
  · intro c topic v now md hwf hover
    set c1 := insertEntry c topic ⟨v, now, md⟩ with hc1
    have hne : c1 ≠ [] := by
      intro h0
      rw [h0] at hover
      simp at hover
    rcases hoe : oldestEntry c1 with _ | ⟨k, t⟩
    · exact absurd ((oldestEntry_eq_none c1).mp hoe) hne
    · obtain ⟨⟨e, hmem, hts⟩, hmin⟩ := oldestEntry_spec c1 k t hoe
      have heq : (setValue N c topic v now md).1 = eraseTopic c1 k := by
        unfold setValue evictIfNeeded
        rw [← hc1, if_pos hover, hoe]
      refine ⟨k, t, rfl, heq, ⟨e, hmem, hts⟩, hmin, ?_⟩
      rw [heq]
      exact eraseTopic_length_wf c1 k e (insertEntry_wf c topic ⟨v, now, md⟩ hwf) hmem

/-- Witness for C1 at a concrete input: max-entries 1, a two-write
sequence, and an eviction step on a one-entry cache. -/
theorem setValue_capacity_and_min_eviction_witness :
    (runSets 1 opsC1).length ≤ 1 ∧
    (∃ k t,
      oldestEntry (insertEntry cacheC1 "b" ⟨v2, 7, mdE⟩) = some (k, t) ∧
      (setValue 1 cacheC1 "b" v2 7 mdE).1 = eraseTopic (insertEntry cacheC1 "b" ⟨v2, 7, mdE⟩) k ∧
      (∃ e, (k, e) ∈ insertEntry cacheC1 "b" ⟨v2, 7, mdE⟩ ∧ e.ts = t) ∧
      (∀ p ∈ insertEntry cacheC1 "b" ⟨v2, 7, mdE⟩, t ≤ p.2.ts) ∧
      (setValue 1 cacheC1 "b" v2 7 mdE).1.length + 1 =
        (insertEntry cacheC1 "b" ⟨v2, 7, mdE⟩).length) :=
  ⟨(setValue_capacity_and_min_eviction 1 opsC1).1,
   (setValue_capacity_and_min_eviction 1 []).2 cacheC1 "b" v2 7 mdE (by decide) (by decide)⟩

/-- C8: when TTL is positive the cleanup interval exists with period
`min(TTL, 60000)` ms; with TTL = 0 no interval is created so entries never
expire; one sweep pass retains exactly the entries whose age does not
exceed the TTL and emits no 'update' events. -/
theorem ttlSweep_spec (ttl now : Nat) (c : Cache) :
    (0 < ttl → sweepPeriod ttl = some (min ttl 60000)) ∧
    sweepPeriod 0 = none ∧
    (∀ (k : String) (e : Entry),
      ((k, e) ∈ (ttlSweep ttl now c).1 ↔
        (k, e) ∈ c ∧ ¬((now : Int) - (e.ts : Int) > (ttl : Int)))) ∧
    (ttlSweep ttl now c).2 = [] := by
  refine ⟨?_, ?_, ?_, rfl⟩
  · intro h
    simp [sweepPeriod, h]
  · simp [sweepPeriod]
  · intro k e
    simp [ttlSweep, List.mem_filter]

/-- Witness for C8: with TTL 100 at time 200, an entry written at time 5
(age 195) is removed, and the sweep emits nothing. -/
theorem ttlSweep_spec_witness :
    sweepPeriod 100 = some (min 100 60000) ∧
    ((("a", (⟨v1, 5, mdE⟩ : Entry)) ∈ (ttlSweep 100 200 cacheC1).1 ↔
      ("a", (⟨v1, 5, mdE⟩ : Entry)) ∈ cacheC1 ∧
        ¬((200 : Int) - (((5 : Nat) : Int)) > ((100 : Nat) : Int))) ∧
    (ttlSweep 100 200 cacheC1).2 = []) :=
  ⟨(ttlSweep_spec 100 200 cacheC1).1 (by decide),
   (ttlSweep_spec 100 200 cacheC1).2.2.1 "a" ⟨v1, 5, mdE⟩,
   (ttlSweep_spec 100 200 cacheC1).2.2.2⟩

/-- C4 (evaluation at the failing input): the dispatcher performs only an
exact Map lookup, so a subscription registered under the wildcard pattern
string `sensors/*` receives no invocation when `sensors/a` — a topic the
documented wildcard semantics says the pattern matches — is written; it is
invoked only by a write whose topic is the literal string `sensors/*`. -/
theorem wildcard_subscription_not_dispatched :
    (updateHandler subsWild "sensors/a" ⟨v1, 5, mdE⟩).1 = [] ∧
    (setValueDispatch 10 subsWild [] "sensors/a" v1 5 mdE).2.2.1 = [] ∧
    (updateHandler subsWild "sensors/*" ⟨v1, 5, mdE⟩).1 =
      [⟨"sub_1", "sensors/*", ⟨v1, 5, mdE⟩⟩] :=
  ⟨rfl, rfl, rfl⟩

lemma updateHandler_foldl (bucket : List Subscriber) (topic : String) (entry : Entry)
    (acc : List Invocation × List String) :
    bucket.foldl
      (fun acc s =>
        match runCb s with
        | Except.ok _ => (acc.1 ++ [⟨s.id, topic, entry⟩], acc.2)
        | Except.error m => (acc.1 ++ [⟨s.id, topic, entry⟩], acc.2 ++ [cbLogMsg m]))
      acc =
    (acc.1 ++ bucket.map (fun s => ⟨s.id, topic, entry⟩),
     acc.2 ++ (bucket.filter (fun s => s.failure.isSome)).map
       (fun s => cbLogMsg (s.failure.getD ""))) := by
  induction bucket generalizing acc with
  | nil => simp
  | cons s t ih =>
      simp only [List.foldl_cons]
      rw [ih]
      cases hf : s.failure with
      | none => simp [runCb, hf]
      | some m => simp [runCb, hf]

lemma updateHandler_eq (subs : Subs) (topic : String) (entry : Entry)
    (bucket : List Subscriber) (h : subsGet subs topic = some bucket) :
    updateHandler subs topic entry =
      (bucket.map (fun s => ⟨s.id, topic, entry⟩),
       (bucket.filter (fun s => s.failure.isSome)).map
         (fun s => cbLogMsg (s.failure.getD ""))) := by
  unfold updateHandler
  rw [h]
  simpa using updateHandler_foldl bucket topic entry ([], [])

lemma updateHandler_none (subs : Subs) (topic : String) (entry : Entry)
    (h : subsGet subs topic = none) :
    updateHandler subs topic entry = ([], []) := by
  unfold updateHandler
  rw [h]

lemma filter_id_of_count_one (bT : List Subscriber) (i : String)
    (h : (bT.map Subscriber.id).count i = 1) :
    ∃ s0 : Subscriber, bT.filter (fun s => s.id = i) = [s0] ∧ s0.id = i := by
  induction bT with
  | nil => simp at h
  | cons s t ih =>
      by_cases hs : s.id = i
      · have hzero : (t.map Subscriber.id).count i = 0 := by
          simp [List.count_cons, hs] at h
          omega
        have hnot : ∀ q ∈ t, ¬(q.id = i) := by
          intro q hq hqi
          have : i ∈ t.map Subscriber.id := List.mem_map.mpr ⟨q, hq, hqi⟩
          rw [← List.count_pos_iff] at this
          omega
        refine ⟨s, ?_, hs⟩
        rw [List.filter_cons_of_pos (by simp [hs])]
        have : t.filter (fun s => s.id = i) = [] := by
          refine List.filter_eq_nil_iff.mpr ?_
          intro q hq
          simpa using hnot q hq
        rw [this]
      · have hrest : (t.map Subscriber.id).count i = 1 := by
          simp [List.count_cons, hs] at h
          omega
        obtain ⟨s0, h0, hi0⟩ := ih hrest
        exact ⟨s0, by rw [List.filter_cons_of_neg (by simp [hs]), h0], hi0⟩

lemma filter_map_invocations (bucket : List Subscriber) (topic : String) (entry : Entry)
    (i : String) :
    ((bucket.map (fun s => (⟨s.id, topic, entry⟩ : Invocation))).filter
        (fun inv => inv.subId = i)) =
      (bucket.filter (fun s => s.id = i)).map (fun s => (⟨s.id, topic, entry⟩ : Invocation)) := by
  induction bucket with
  | nil => rfl
  | cons s t ih =>
      by_cases hs : s.id = i
      · simp only [List.map_cons]
        rw [List.filter_cons_of_pos (by simp [hs]), List.filter_cons_of_pos (by simp [hs])]
        rw [List.map_cons, ih]
      · simp only [List.map_cons]
        rw [List.filter_cons_of_neg (by simp [hs]), List.filter_cons_of_neg (by simp [hs])]
        exact ih

/-- C5: a subscription registered under the exact topic `T` is invoked
exactly once, with the written topic and the freshly stored entry, by the
synchronous dispatch of `setValue(T, v, m)`; and a write to any other topic
`U` (under which the subscription id is not registered) produces no
invocation of it. -/
theorem exact_subscription_dispatch (N : Nat) (subs : Subs) (c : Cache)
    (T U : String) (v : JsValue) (now : Nat) (md : MetaData)
    (i : String) (bT : List Subscriber)
    (hT : subsGet subs T = some bT)
    (hcount : (bT.map Subscriber.id).count i = 1) :
    ((setValueDispatch N subs c T v now md).2.2.1.filter
        (fun inv => inv.subId = i)) = [⟨i, T, ⟨v, now, md⟩⟩] ∧
    (U ≠ T →
      (∀ bU, subsGet subs U = some bU → i ∉ bU.map Subscriber.id) →
      ((setValueDispatch N subs c U v now md).2.2.1.filter
        (fun inv => inv.subId = i)) = []) := by
  constructor
  · have hinv : (setValueDispatch N subs c T v now md).2.2.1 =
        bT.map (fun s => (⟨s.id, T, ⟨v, now, md⟩⟩ : Invocation)) := by
      unfold setValueDispatch
      simp only []
      rw [updateHandler_eq subs T ((setValue N c T v now md).2) bT hT]
      rfl
    rw [hinv, filter_map_invocations]
    obtain ⟨s0, h0, hi0⟩ := filter_id_of_count_one bT i hcount
    rw [h0]
    simp [hi0]
  · intro _ hU
    rcases hbU : subsGet subs U with _ | bU
    · have hinv : (setValueDispatch N subs c U v now md).2.2.1 = [] := by
        unfold setValueDispatch
        simp only []
        rw [updateHandler_none subs U ((setValue N c U v now md).2) hbU]
      rw [hinv]
      rfl
    · have hinv : (setValueDispatch N subs c U v now md).2.2.1 =
          bU.map (fun s => (⟨s.id, U, ⟨v, now, md⟩⟩ : Invocation)) := by
        unfold setValueDispatch
        simp only []
        rw [updateHandler_eq subs U ((setValue N c U v now md).2) bU hbU]
        rfl
      rw [hinv, filter_map_invocations]
      have : bU.filter (fun s => s.id = i) = [] := by
        refine List.filter_eq_nil_iff.mpr ?_
        intro q hq
        simp only [decide_eq_true_eq]
        intro hqi
        exact hU bU hbU (List.mem_map.mpr ⟨q, hq, hqi⟩)
      rw [this]
      rfl

/-- Witness for C5: in a registry with `sub_1` on topic `t` and `sub_2` on
topic `u`, a write to `t` invokes `sub_1` exactly once with the fresh
entry, and a write to `u` does not invoke it. -/
theorem exact_subscription_dispatch_witness :
    ((setValueDispatch 10 subsTU [] "t" v1 5 mdE).2.2.1.filter
        (fun inv => inv.subId = "sub_1")) = [⟨"sub_1", "t", ⟨v1, 5, mdE⟩⟩] ∧
    ((setValueDispatch 10 subsTU [] "u" v1 5 mdE).2.2.1.filter
        (fun inv => inv.subId = "sub_1")) = [] := by
  have h := exact_subscription_dispatch 10 subsTU [] "t" "u" v1 5 mdE "sub_1"
    [⟨"sub_1", none⟩] rfl (by decide)
  exact ⟨h.1, h.2 (by decide) (by decide)⟩

/-- C7: during dispatch of one cache write, every callback in the topic's
bucket is invoked even when earlier callbacks throw (the throw is caught
and turned into a log line), and the write itself — the cache state
returned to the caller of `set` — is unaffected by callback failures. -/
theorem dispatch_isolates_callback_failures (subs : Subs) (topic : String) (entry : Entry)
    (bucket : List Subscriber) (h : subsGet subs topic = some bucket) :
    (updateHandler subs topic entry).1 = bucket.map (fun s => ⟨s.id, topic, entry⟩) ∧
    (updateHandler subs topic entry).2 =
      (bucket.filter (fun s => s.failure.isSome)).map
        (fun s => cbLogMsg (s.failure.getD "")) ∧
    (∀ (N : Nat) (c : Cache) (v : JsValue) (now : Nat) (md : MetaData),
      (setValueDispatch N subs c topic v now md).1 = (setValue N c topic v now md).1) := by
  have he := updateHandler_eq subs topic entry bucket h
  exact ⟨by rw [he], by rw [he], fun N c v now md => rfl⟩

/-- Witness for C7: on topic `t`, `sub_1` throws 'boom' yet `sub_2` is still
invoked, the throw is only logged, and the cache write goes through. -/
theorem dispatch_isolates_callback_failures_witness :
    (updateHandler subsThrow "t" ⟨v1, 5, mdE⟩).1 =
      [⟨"sub_1", "t", ⟨v1, 5, mdE⟩⟩, ⟨"sub_2", "t", ⟨v1, 5, mdE⟩⟩] ∧
    (updateHandler subsThrow "t" ⟨v1, 5, mdE⟩).2 = [cbLogMsg "boom"] ∧
    (setValueDispatch 10 subsThrow [] "t" v1 5 mdE).1 = (setValue 10 [] "t" v1 5 mdE).1 := by
  have h := dispatch_isolates_callback_failures subsThrow "t" ⟨v1, 5, mdE⟩
    [⟨"sub_1", some "boom"⟩, ⟨"sub_2", none⟩] rfl
  refine ⟨?_, ?_, h.2.2 10 [] v1 5 mdE⟩
  · rw [h.1]
    rfl
  · rw [h.2.1]
    rfl

lemma dispatchToCalc_foldl_all (cfg : CalcConfig) (topic : String) (entry : Entry) (now : Nat)
    (P : TryResult → Prop)
    (hP : ∀ l : Latest, P (tryCalculate cfg topic l now)) :
    ∀ (ims : List InputMapping) (acc : Latest × List TryResult),
      (∀ r ∈ acc.2, P r) →
      ∀ r ∈ (ims.foldl
        (fun acc im =>
          if im.name ≠ "" ∧ topicNameOf im ≠ "" ∧ topicNameOf im = topic then
            let lr := calcCallback cfg im.name topic entry acc.1 now
            (lr.1, acc.2 ++ [lr.2])
          else acc) acc).2, P r := by
  intro ims
  induction ims with
  | nil => intro acc hacc r hr; exact hacc r hr
  | cons im t ih =>
      intro acc hacc r hr
      simp only [List.foldl_cons] at hr
      refine ih _ ?_ r hr
      by_cases hc : im.name ≠ "" ∧ topicNameOf im ≠ "" ∧ topicNameOf im = topic
      · rw [if_pos hc]
        intro r' hr'
        rcases List.mem_append.mp hr' with h | h
        · exact hacc r' h
        · rw [List.mem_singleton.mp h]
          exact hP _
      · rw [if_neg hc]
        exact hacc

/-- C3: `tryCalculate` aborts silently — nothing on either output, no cache
write — whenever the triggering topic equals the calculator's output topic;
consequently, in the dispatch of a cache write to the output topic, every
callback of a calculator one of whose inputs is mapped to that topic
returns the empty outcome, so the calculator never reacts to its own write
and the write triggers no further recursion. -/
theorem feedback_loop_guard (cfg : CalcConfig) (latest : Latest) (entry : Entry) (now : Nat) :
    tryCalculate cfg cfg.outputTopic latest now = emptyResult ∧
    (∀ r ∈ (dispatchToCalc cfg latest cfg.outputTopic entry now).2, r = emptyResult) := by
  constructor
  · unfold tryCalculate
    rw [if_pos rfl]
  · unfold dispatchToCalc
    refine dispatchToCalc_foldl_all cfg cfg.outputTopic entry now (fun r => r = emptyResult)
      (fun l => ?_) cfg.inputMappings (latest, []) (by simp)
    unfold tryCalculate
    rw [if_pos rfl]

/-- Witness for C3: a calculator whose single input is mapped to its own
output topic `calc/result` ignores a write to that topic entirely. -/
theorem feedback_loop_guard_witness :
    tryCalculate cfgSelf cfgSelf.outputTopic latestA 5 = emptyResult ∧
    (emptyResult ∈ (dispatchToCalc cfgSelf latestA cfgSelf.outputTopic ⟨v1, 5, mdE⟩ 5).2 ∧
      emptyResult = emptyResult) :=
  ⟨(feedback_loop_guard cfgSelf latestA ⟨v1, 5, mdE⟩ 5).1,
   by decide,
   (feedback_loop_guard cfgSelf latestA ⟨v1, 5, mdE⟩ 5).2 emptyResult (by decide)⟩

lemma tryCalculate_pass (cfg : CalcConfig) (trigger : String) (latest : Latest) (now : Nat)
    (h1 : trigger ≠ cfg.outputTopic)
    (h2 : cfg.triggerOn = "all" → allPresent cfg latest = true)
    (h3 : latest ≠ ([] : List (String × InputData))) :
    tryCalculate cfg trigger latest now =
      (match evalExpr (buildContext cfg latest).ctx cfg.expression with
       | Except.error m =>
           ⟨none,
            some ⟨cfg.outputTopic, m, none, some (buildContext cfg latest).ctx,
              cfg.expression, (buildContext cfg latest).details, trigger, now⟩,
            none⟩
       | Except.ok v =>
           if isNaNNumber v then
             ⟨none,
              some ⟨cfg.outputTopic, "Expression resulted in NaN",
                some (buildContext cfg latest).missing, none, cfg.expression,
                (buildContext cfg latest).details, trigger, now⟩,
              none⟩
           else
             ⟨some ⟨cfg.outputTopic, v, topicsObj cfg (buildContext cfg latest),
                (buildContext cfg latest).details, timestampsObj (buildContext cfg latest),
                cfg.expression, trigger, now⟩,
              none,
              some ⟨cfg.outputTopic, v, MetaData.ofCalc cfg.expression
                ((buildContext cfg latest).details.map Prod.fst)⟩⟩) := by
  unfold tryCalculate tryCalcGuarded
  rw [if_neg h1]
  have hgate : ¬(cfg.triggerOn = "all" ∧ allPresent cfg latest = false) := by
    rintro ⟨ha, hb⟩
    rw [h2 ha] at hb
    simp at hb
  rw [if_neg hgate, if_neg h3]

/-- C2: once the three silent-abort gates pass, the calculator writes its
result to the cache exactly when evaluation returns without throwing and
the result is not a number-typed NaN; a thrown evaluation or a NaN result
leaves the cache untouched and emits a structured failure — carrying the
error message (with the context) or the missing-input list, plus the
expression — on the second output only.  Concretely, `a/0` with `a = 1`
evaluates to Infinity and is a success that writes the cache, while `0/0`
is a NaN failure with an empty missing-input list. -/
theorem calc_writes_iff_nonNaN_success :
    (∀ (cfg : CalcConfig) (trigger : String) (latest : Latest) (now : Nat),
      trigger ≠ cfg.outputTopic →
      (cfg.triggerOn = "all" → allPresent cfg latest = true) →
      latest ≠ ([] : List (String × InputData)) →
      (((tryCalculate cfg trigger latest now).write.isSome = true) ↔
        (∃ v, evalExpr (buildContext cfg latest).ctx cfg.expression = Except.ok v ∧
          isNaNNumber v = false)) ∧
      (∀ m, evalExpr (buildContext cfg latest).ctx cfg.expression = Except.error m →
        tryCalculate cfg trigger latest now =
          ⟨none,
           some ⟨cfg.outputTopic, m, none, some (buildContext cfg latest).ctx,
             cfg.expression, (buildContext cfg latest).details, trigger, now⟩,
           none⟩) ∧
      (evalExpr (buildContext cfg latest).ctx cfg.expression =
          Except.ok (JsValue.num JsNum.nan) →
        tryCalculate cfg trigger latest now =
          ⟨none,
           some ⟨cfg.outputTopic, "Expression resulted in NaN",
             some (buildContext cfg latest).missing, none, cfg.expression,
             (buildContext cfg latest).details, trigger, now⟩,
           none⟩)) ∧
    tryCalculate cfgDivA "x" latestA 9 =
      ⟨some ⟨"calc/result", JsValue.num JsNum.inf,
         [("_output", "calc/result"), ("a", "x")],
         [("a", ⟨"x", v1, 5⟩)], [("a", 5)], cfgDivA.expression, "x", 9⟩,
       none,
       some ⟨"calc/result", JsValue.num JsNum.inf,
         MetaData.ofCalc cfgDivA.expression ["a"]⟩⟩ ∧
    tryCalculate cfgZeroZero "x" latestA 9 =
      ⟨none,
       some ⟨"calc/result", "Expression resulted in NaN", some [], none,
         cfgZeroZero.expression, [("a", ⟨"x", v1, 5⟩)], "x", 9⟩,
       none⟩ := by
  refine ⟨?_, by rfl, by rfl⟩
  intro cfg trigger latest now h1 h2 h3
  have hp := tryCalculate_pass cfg trigger latest now h1 h2 h3
  refine ⟨?_, ?_, ?_⟩
  · rw [hp]
    rcases heval : evalExpr (buildContext cfg latest).ctx cfg.expression with m | v
    · simp [heval]
    · by_cases hnan : isNaNNumber v = true
      · simp [hnan]
      · simp only [Bool.not_eq_true] at hnan
        simp [hnan]
  · intro m hm
    rw [hp, hm]
  · intro hm
    rw [hp, hm]
    rfl

/-- Witness for C2: the reference-error calculator at a concrete input:
the write-iff characterisation holds and the thrown ReferenceError is
reported on the failure output with the cache untouched. -/
theorem calc_writes_iff_nonNaN_success_witness :
    (((tryCalculate cfgRefErr "x" latestA 9).write.isSome = true) ↔
      (∃ v, evalExpr (buildContext cfgRefErr latestA).ctx cfgRefErr.expression = Except.ok v ∧
        isNaNNumber v = false)) ∧
    tryCalculate cfgRefErr "x" latestA 9 =
      ⟨none,
       some ⟨"calc/result", "zz is not defined", none, some [("a", v1)],
         cfgRefErr.expression, [("a", ⟨"x", v1, 5⟩)], "x", 9⟩,
       none⟩ := by
  have h := calc_writes_iff_nonNaN_success.1 cfgRefErr "x" latestA 9
    (by decide) (by decide) (by decide)
  refine ⟨h.1, ?_⟩
  have := h.2.1 "zz is not defined" (by rfl)
  rw [this]
  rfl

lemma isNaNNumber_false_of_not_number (v : JsValue) (h : isNumberType v = false) :
    isNaNNumber v = false := by
  cases v <;> simp [isNumberType, isNaNNumber] at *

/-- C10: the NaN guard tests `typeof result === 'number'` first, so any
evaluation result that is not of number type — `undefined`, `null`, a
boolean, a string, an object — is treated as a success: it is emitted on
the first output and written to the cache under the output topic.
Concretely, a calculator whose single input is bound to the missing marker
(because the latest value was `null`) and whose expression returns that
variable succeeds with payload `undefined` and writes `undefined` to the
cache. -/
theorem nonNumber_result_is_success :
    (∀ (cfg : CalcConfig) (trigger : String) (latest : Latest) (now : Nat) (v : JsValue),
      trigger ≠ cfg.outputTopic →
      (cfg.triggerOn = "all" → allPresent cfg latest = true) →
      latest ≠ ([] : List (String × InputData)) →
      evalExpr (buildContext cfg latest).ctx cfg.expression = Except.ok v →
      isNumberType v = false →
      tryCalculate cfg trigger latest now =
        ⟨some ⟨cfg.outputTopic, v, topicsObj cfg (buildContext cfg latest),
           (buildContext cfg latest).details, timestampsObj (buildContext cfg latest),
           cfg.expression, trigger, now⟩,
         none,
         some ⟨cfg.outputTopic, v, MetaData.ofCalc cfg.expression
           ((buildContext cfg latest).details.map Prod.fst)⟩⟩) ∧
    tryCalculate cfgIdent "x" latestNull 9 =
      ⟨some ⟨"calc/result", JsValue.undef, [("_output", "calc/result")], [], [],
         cfgIdent.expression, "x", 9⟩,
       none,
       some ⟨"calc/result", JsValue.undef, MetaData.ofCalc cfgIdent.expression []⟩⟩ := by
  refine ⟨?_, by rfl⟩
  intro cfg trigger latest now v h1 h2 h3 heval hnum
  rw [tryCalculate_pass cfg trigger latest now h1 h2 h3, heval]
  simp [isNaNNumber_false_of_not_number v hnum]

/-- Witness for C10: the identity calculator over a `null`-valued input at
a concrete time. -/
theorem nonNumber_result_is_success_witness :
    tryCalculate cfgIdent "x" latestNull 9 =
      ⟨some ⟨cfgIdent.outputTopic, JsValue.undef, topicsObj cfgIdent (buildContext cfgIdent latestNull),
         (buildContext cfgIdent latestNull).details, timestampsObj (buildContext cfgIdent latestNull),
         cfgIdent.expression, "x", 9⟩,
       none,
       some ⟨cfgIdent.outputTopic, JsValue.undef, MetaData.ofCalc cfgIdent.expression
         ((buildContext cfgIdent latestNull).details.map Prod.fst)⟩⟩ :=
  nonNumber_result_is_success.1 cfgIdent "x" latestNull 9 JsValue.undef
    (by decide) (by decide) (by decide) (by rfl) (by rfl)

/-- C6: with trigger policy `all`, `tryCalculate` produces nothing while
some input name is absent from `latestValues`; for the concrete calculator
with inputs `a -> x`, `b -> y` and expression `a+b`, the dispatch of
`set("x", 1)` on an empty snapshot produces only the empty outcome, and the
subsequent dispatch of `set("y", 2)` produces the success result 3 on
output topic `calc/result` together with the cache write. -/
theorem all_policy_gating :
    (∀ (cfg : CalcConfig) (trigger : String) (latest : Latest) (now : Nat),
      cfg.triggerOn = "all" →
      (∃ im ∈ cfg.inputMappings, assocGet latest im.name = none) →
      tryCalculate cfg trigger latest now = emptyResult) ∧
    (dispatchToCalc cfgAll [] "x" ⟨v1, 5, mdE⟩ 5).2 = [emptyResult] ∧
    (dispatchToCalc cfgAll [("a", ⟨"x", v1, 5⟩)] "y" ⟨v2, 7, mdE⟩ 7).2 =
      [⟨some ⟨"calc/result", JsValue.num (JsNum.finite 3),
          [("_output", "calc/result"), ("a", "x"), ("b", "y")],
          [("a", ⟨"x", v1, 5⟩), ("b", ⟨"y", v2, 7⟩)],
          [("a", 5), ("b", 7)], cfgAll.expression, "y", 7⟩,
        none,
        some ⟨"calc/result", JsValue.num (JsNum.finite 3),
          MetaData.ofCalc cfgAll.expression ["a", "b"]⟩⟩] := by
  refine ⟨?_, by rfl, ?_⟩
  · intro cfg trigger latest now hall ⟨im, him, hmiss⟩
    unfold tryCalculate
    by_cases htr : trigger = cfg.outputTopic
    · rw [if_pos htr]
    · rw [if_neg htr]
      unfold tryCalcGuarded
      have hfalse : allPresent cfg latest = false := by
        unfold allPresent
        rw [List.all_eq_false]
        exact ⟨im, him, by simp [hmiss]⟩
      rw [if_pos ⟨hall, hfalse⟩]
  · have hadd : (1 : ℚ) + 2 = 3 := by norm_num
    simp [dispatchToCalc, calcCallback, tryCalculate, tryCalcGuarded, allPresent,
      buildContext, assocGet, assocSet, topicNameOf, evalExpr, jsAdd, toPrimitive,
      toNumber, numAdd, topicsObj, timestampsObj, cfgAll, v1, v2, emptyResult,
      isNaNNumber, hadd]

/-- Witness for C6: with only `a` known, the `all`-policy calculator stays
silent. -/
theorem all_policy_gating_witness :
    tryCalculate cfgAll "x" [("a", ⟨"x", v1, 5⟩)] 5 = emptyResult :=
  all_policy_gating.1 cfgAll "x" [("a", ⟨"x", v1, 5⟩)] 5 (by rfl)
    ⟨⟨"b", "y", ""⟩, by decide, by rfl⟩

/-- C9 (counterexample to the claim as stated): for a calculator configured
with output topic `_recalc`, an inbound 'recalc' message does invoke
`tryCalculate` with the synthetic trigger `_recalc`, but that identifier
then equals the output topic, so the feedback-loop guard aborts and no
re-evaluation is forced — the synthetic identifier is not distinct from
every possible output topic. -/
theorem recalc_not_distinct_counterexample :
    (handleInput cfgUnderscore latestA msgRecalc 9).2 = some emptyResult := by rfl

/-- C9 (amended): an inbound message whose payload or topic is 'recalc'
invokes `tryCalculate` with the fixed synthetic trigger identifier
`_recalc` on the unchanged `latestValues` (provided at least one input
value is known); the expression-update step never changes the input
mappings or the output topic; and whenever the configured output topic is
not the literal `_recalc` the feedback-loop guard passes, so the gated body
runs — recomputation is forced even though no watched input changed. -/
theorem recalc_external_trigger (cfg : CalcConfig) (latest : Latest) (m : InMsg) (now : Nat)
    (hrc : m.payload = JsValue.str "recalc" ∨ m.topic = some "recalc")
    (hne : latest ≠ ([] : List (String × InputData))) :
    (handleInput cfg latest m now).2 =
      some (tryCalculate (handleInput cfg latest m now).1 "_recalc" latest now) ∧
    (handleInput cfg latest m now).1.inputMappings = cfg.inputMappings ∧
    (handleInput cfg latest m now).1.outputTopic = cfg.outputTopic ∧
    ((handleInput cfg latest m now).1.outputTopic ≠ "_recalc" →
      tryCalculate (handleInput cfg latest m now).1 "_recalc" latest now =
        tryCalcGuarded (handleInput cfg latest m now).1 "_recalc" latest now) := by
  cases hm : m.expression with
  | none =>
      refine ⟨?_, by simp [handleInput, hm], by simp [handleInput, hm], ?_⟩
      · simp [handleInput, hm, hrc, hne]
      · intro hout
        unfold tryCalculate
        rw [if_neg (fun he => hout he.symm)]
  | some e =>
      refine ⟨?_, by simp [handleInput, hm], by simp [handleInput, hm], ?_⟩
      · simp [handleInput, hm, hrc, hne]
      · intro hout
        unfold tryCalculate
        rw [if_neg (fun he => hout he.symm)]

/-- Witness for C9 (amended): the default-style calculator with output
topic `calc/result` at a concrete 'recalc' message. -/
theorem recalc_external_trigger_witness :
    (handleInput cfgIdent latestA msgRecalc 9).2 =
      some (tryCalculate (handleInput cfgIdent latestA msgRecalc 9).1 "_recalc" latestA 9) ∧
    (handleInput cfgIdent latestA msgRecalc 9).1.inputMappings = cfgIdent.inputMappings ∧
    (handleInput cfgIdent latestA msgRecalc 9).1.outputTopic = cfgIdent.outputTopic ∧
    tryCalculate (handleInput cfgIdent latestA msgRecalc 9).1 "_recalc" latestA 9 =
      tryCalcGuarded (handleInput cfgIdent latestA msgRecalc 9).1 "_recalc" latestA 9 := by
  have h := recalc_external_trigger cfgIdent latestA msgRecalc 9 (Or.inl rfl) (by decide)
  exact ⟨h.1, h.2.1, h.2.2.1, h.2.2.2 (by decide)⟩
